import Mathlib

/-!
# Verification of the attgo-linter analyzers

A shallow embedding of the attgo-linter source (a set of Go static-analysis
rules plus their configuration merge) together with proofs about it.

Go strings are modelled as `List Char`; the handful of functions from Go's
`strings` package that the source uses (`HasPrefix`, `TrimPrefix`,
`HasSuffix`, `TrimSuffix`, `Contains`, `ToLower`, `TrimSpace`, `Fields`)
are translated onto `List Char`.  Character-class predicates from Go's
`unicode` package are modelled on their ASCII fragment, which is the
fragment all analyzed inputs in this development use.

Host-supplied data (parsed declarations, resolved type strings, comment
text, the current year) is modelled as explicit input structures, one per
analyzer, mirroring exactly the fields of the syntax tree and type
information each analyzer reads.
-/

namespace AttgoLinter

/-- Characters of a string literal; used both in the embedded definitions and
to write concrete inputs. -/
def chars (x : String) : List Char := x.toList

/-- Go `strings.HasPrefix s pre`. -/
def hasPre (s pre : List Char) : Bool := pre.isPrefixOf s

/-- Go `strings.TrimPrefix s pre`. -/
def dropPre (s pre : List Char) : List Char :=
  if pre.isPrefixOf s then s.drop pre.length else s

/-- Go `strings.HasSuffix s suf`. -/
def hasSuf (s suf : List Char) : Bool := suf.isSuffixOf s

/-- Go `strings.TrimSuffix s suf`. -/
def dropSuf (s suf : List Char) : List Char :=
  if suf.isSuffixOf s then s.take (s.length - suf.length) else s

/-- ASCII fragment of Go `unicode.IsUpper`. -/
def isUpperGo (c : Char) : Bool := 'A' ≤ c && c ≤ 'Z'

/-- ASCII fragment of Go `unicode.IsLower`. -/
def isLowerGo (c : Char) : Bool := 'a' ≤ c && c ≤ 'z'

/-- ASCII fragment of Go `unicode.IsDigit`. -/
def isDigitGo (c : Char) : Bool := '0' ≤ c && c ≤ '9'

/-- ASCII characters of Unicode category P (punctuation); the ASCII fragment
of Go `unicode.IsPunct`.  Note `$ + < = > ^ | ~` and the backquote are
category S (symbols) and are not punctuation in Go. -/
def goPunct : List Char :=
  ['!', '"', '#', '%', '&', '\'', '(', ')', '*', ',', '-', '.', '/',
   ':', ';', '?', '@', '[', '\\', ']', '_', '\x7b', '\x7d']

/-- ASCII fragment of Go `unicode.IsPunct`. -/
def isPunctGo (c : Char) : Bool := goPunct.contains c

/-- ASCII fragment of Go `unicode.IsSpace` (space, tab, newline, vertical
tab, form feed, carriage return). -/
def isSpaceGo (c : Char) : Bool :=
  c == ' ' || c == '\t' || c == '\n' || c == Char.ofNat 11 ||
    c == Char.ofNat 12 || c == '\r'

/-- ASCII fragment of Go `unicode.ToLower`. -/
def toLowerGo (c : Char) : Char :=
  if isUpperGo c then Char.ofNat (c.toNat + 32) else c

/-- Go `strings.ToLower`. -/
def lowerStr (s : List Char) : List Char := s.map toLowerGo

/-- Go `strings.Contains s sub`. -/
def containsSub (s sub : List Char) : Bool := decide (sub <:+: s)

/-- Go `strings.TrimSpace`. -/
def trimSpace (s : List Char) : List Char :=
  ((s.dropWhile isSpaceGo).reverse.dropWhile isSpaceGo).reverse

/-- Splitting worker for `fieldsGo`; `acc` holds the current word reversed. -/
def fieldsAux : List Char → List Char → List (List Char)
  | [], acc => if acc.isEmpty then [] else [acc.reverse]
  | c :: rest, acc =>
    if isSpaceGo c then
      if acc.isEmpty then fieldsAux rest [] else acc.reverse :: fieldsAux rest []
    else fieldsAux rest (c :: acc)

/-- Go `strings.Fields`: split around runs of white space. -/
def fieldsGo (s : List Char) : List (List Char) := fieldsAux s []

namespace nopkglogger

/-- `matchTypePattern` from `analyzers/nopkglogger`, step 2: the (possibly
already star-stripped) type string must end with the pattern, and the
match must sit at a package/member boundary. -/
def matchSuffixBoundary (typeName pat : List Char) : Bool :=
  if hasSuf typeName pat then
    dropSuf typeName pat == ([] : List Char) ||
      hasSuf (dropSuf typeName pat) (chars "/") ||
      hasSuf (dropSuf typeName pat) (chars ".")
  else false

/-- `matchTypePattern` from `analyzers/nopkglogger`: pointer-marker handling
followed by the suffix/boundary test. -/
def matchTypePattern (typeName pat : List Char) : Bool :=
  if hasPre pat (chars "*") then
    if !hasPre typeName (chars "*") then false
    else matchSuffixBoundary (dropPre typeName (chars "*")) (dropPre pat (chars "*"))
  else if hasPre typeName (chars "*") then false
  else matchSuffixBoundary typeName pat

/-- `runner.isLoggerType`: some configured pattern matches the type string. -/
def isLoggerType (patterns : List (List Char)) (typeName : List Char) : Bool :=
  patterns.any fun pat => matchTypePattern typeName pat

/-- Scope of a declared variable, as the analyzer distinguishes it via
`obj.Parent() == obj.Pkg().Scope()`: package level, function-local, or a
struct field. -/
inductive DeclScope where
  | unitScope
  | localScope
  | fieldScope
deriving DecidableEq

/-- One declared variable with its resolved type string (the full
`types.TypeString`, including package path and any leading `*`). -/
structure VarDecl where
  name : List Char
  scope : DeclScope
  typeString : List Char
deriving DecidableEq

/-- The package-scope test in `runner.run`. -/
def isPackageScope : DeclScope → Bool
  | DeclScope.unitScope => true
  | _ => false

/-- `runner.run` from `analyzers/nopkglogger`: flag every package-level
variable whose resolved type matches a configured logger pattern. -/
def run (patterns : List (List Char)) (decls : List VarDecl) : List VarDecl :=
  decls.filter fun v => isPackageScope v.scope && isLoggerType patterns v.typeString

/-- The spec's module-path / member separators. -/
def sepChar (c : Char) : Prop := c = '/' ∨ c = '.'

/-- The §4.1 boundary condition as the spec words it: the type string ends
with the pattern, and either the match is the entire string or the character
immediately preceding the match is a separator. -/
def boundaryMatches (t p : List Char) : Prop :=
  ∃ pre : List Char, t = pre ++ p ∧
    (pre = [] ∨ ∃ pre2 c, pre = pre2 ++ [c] ∧ sepChar c)

/-- The §4.1 matching contract as the spec words it: indirection markers on
pattern and type string must agree (both stripped before the suffix test;
fail when only one side carries one). -/
def specMatches (t p : List Char) : Prop :=
  (p.head? = some '*' ∧ t.head? = some '*' ∧ boundaryMatches (t.drop 1) (p.drop 1)) ∨
  (p.head? ≠ some '*' ∧ t.head? ≠ some '*' ∧ boundaryMatches t p)

end nopkglogger

namespace config

/-- `Config` from `config.go`: one enable flag per analyzer plus the two
list parameters. -/
structure Config where
  EnableNoPkgLogger : Bool
  EnableEnumIota : Bool
  EnableCurrentYear : Bool
  EnableCapitalComment : Bool
  EnableFuncOpts : Bool
  EnableRawString : Bool
  EnableStructFieldOrder : Bool
  EnableInterfaceCheck : Bool
  LoggerTypePatterns : List (List Char)
  EnumTypeSuffixes : List (List Char)
deriving DecidableEq

/-- `DefaultConfig` from `config.go`. -/
def DefaultConfig : Config where
  EnableNoPkgLogger := true
  EnableEnumIota := true
  EnableCurrentYear := true
  EnableCapitalComment := false
  EnableFuncOpts := false
  EnableRawString := false
  EnableStructFieldOrder := false
  EnableInterfaceCheck := false
  LoggerTypePatterns :=
    [chars "zerolog.Logger", chars "*zerolog.Logger",
     chars "zap.Logger", chars "*zap.Logger",
     chars "zap.SugaredLogger", chars "*zap.SugaredLogger",
     chars "logrus.Logger", chars "*logrus.Logger",
     chars "logrus.Entry", chars "*logrus.Entry",
     chars "slog.Logger", chars "*slog.Logger",
     chars "log.Logger", chars "*log.Logger"]
  EnumTypeSuffixes :=
    [chars "Type", chars "Status", chars "State", chars "Kind", chars "Mode"]

/-- `Config.Merge` from `config.go`: `other == nil` is modelled as `none`.
Only the two list fields are touched, and only when non-empty in `other`. -/
def Merge (c : Config) (other : Option Config) : Config :=
  match other with
  | none => c
  | some o =>
    { c with
      LoggerTypePatterns :=
        if 0 < o.LoggerTypePatterns.length then o.LoggerTypePatterns
        else c.LoggerTypePatterns
      EnumTypeSuffixes :=
        if 0 < o.EnumTypeSuffixes.length then o.EnumTypeSuffixes
        else c.EnumTypeSuffixes }

/-- Which `enable_*` keys are present in the raw user settings map
(`rawSettings` in `plugin.New`); the golangci-lint plugin system passes only
explicitly set values, so presence is what `plugin.New` tests with
`_, ok := rawSettings[...]`. -/
structure RawKeys where
  noPkgLogger : Bool
  enumIota : Bool
  currentYear : Bool
  capitalComment : Bool
  funcOpts : Bool
  rawString : Bool
  structFieldOrder : Bool
  interfaceCheck : Bool
deriving DecidableEq

/-- `New` from `plugin.go`, reduced to its configuration effect: start from
the defaults, override each boolean whose key is present in the raw
settings with the decoded user value, then `Merge` in the user lists.
`none` models a `nil` settings value. -/
def NewConfig (settings : Option (RawKeys × Config)) : Config :=
  match settings with
  | none => DefaultConfig
  | some (keys, userCfg) =>
    let cfg := DefaultConfig
    let cfg := { cfg with
      EnableNoPkgLogger :=
        if keys.noPkgLogger then userCfg.EnableNoPkgLogger else cfg.EnableNoPkgLogger
      EnableEnumIota :=
        if keys.enumIota then userCfg.EnableEnumIota else cfg.EnableEnumIota
      EnableCurrentYear :=
        if keys.currentYear then userCfg.EnableCurrentYear else cfg.EnableCurrentYear
      EnableCapitalComment :=
        if keys.capitalComment then userCfg.EnableCapitalComment else cfg.EnableCapitalComment
      EnableFuncOpts :=
        if keys.funcOpts then userCfg.EnableFuncOpts else cfg.EnableFuncOpts
      EnableRawString :=
        if keys.rawString then userCfg.EnableRawString else cfg.EnableRawString
      EnableStructFieldOrder :=
        if keys.structFieldOrder then userCfg.EnableStructFieldOrder
        else cfg.EnableStructFieldOrder
      EnableInterfaceCheck :=
        if keys.interfaceCheck then userCfg.EnableInterfaceCheck
        else cfg.EnableInterfaceCheck }
    Merge cfg (some userCfg)

end config

namespace enumiota

/-- Kind of a value expression on the right-hand side of a constant
assignment, as far as `hasStringLiteralValue` distinguishes it: a string
basic literal, an integer basic literal, or anything else (identifiers such
as `iota`, computed expressions, ...). -/
inductive ValueExpr where
  | stringLit
  | intLit
  | otherExpr
deriving DecidableEq

/-- One `ast.ValueSpec` inside a `const` declaration, together with the
type information the analyzer resolves for it: `typeName` is the name of
the named type of `Names[0]` (`none` when the constant's type is not a
named type or no object is found), and `underlyingIsString` records whether
that named type's underlying type is the basic `string` type. -/
structure ValueSpec where
  names : List (List Char)
  typeName : Option (List Char)
  underlyingIsString : Bool
  values : List ValueExpr
deriving DecidableEq

/-- A unit (package) as the enumiota analyzer reads it: the names of all
type declarations, and all constant value specs. -/
structure Unit where
  typeNames : List (List Char)
  constSpecs : List ValueSpec
deriving DecidableEq

/-- `runner.isEnumTypeName`: the name ends with one of the configured enum
suffixes. -/
def isEnumTypeName (suffixes : List (List Char)) (name : List Char) : Bool :=
  suffixes.any fun suffix => hasSuf name suffix

/-- Membership in the `enumTypes` map built by the first pass of
`runner.run`: the type is declared in the unit and its name has an
enum-like suffix. -/
def isEnumType (suffixes typeNames : List (List Char)) (name : List Char) : Bool :=
  typeNames.contains name && isEnumTypeName suffixes name

/-- `hasStringLiteralValue`: some value of the spec is a string basic
literal. -/
def hasStringLiteralValue (vs : ValueSpec) : Bool :=
  vs.values.any fun v => v == ValueExpr.stringLit

/-- The per-spec body of `runner.checkConstDecl`: report iff the spec has a
name, its resolved type is a named type collected as an enum type, the
underlying type is `string`, and some assigned value is a string literal. -/
def checkConstSpec (suffixes typeNames : List (List Char)) (vs : ValueSpec) : Bool :=
  if vs.names.isEmpty then false
  else
    match vs.typeName with
    | none => false
    | some tn =>
      if isEnumType suffixes typeNames tn then
        vs.underlyingIsString && hasStringLiteralValue vs
      else false

/-- `runner.run` from `analyzers/enumiota`: phase A collects enum-suffixed
type names, phase B flags the offending const specs. -/
def run (suffixes : List (List Char)) (u : Unit) : List ValueSpec :=
  u.constSpecs.filter (checkConstSpec suffixes u.typeNames)

/-- The default enum suffixes (`DefaultConfig` in `config.go`). -/
def defaultEnumSuffixes : List (List Char) :=
  [chars "Type", chars "Status", chars "State", chars "Kind", chars "Mode"]

/-- The example unit from the spec and the analyzer's documentation:
`type SANType string; const SANTypeDNS SANType = "dns"`,
`type Color string; const ColorRed Color = "red"`, and
`type Priority uint64; const PriorityLow Priority = 10`. -/
def exampleUnit : Unit where
  typeNames := [chars "SANType", chars "Color", chars "Priority"]
  constSpecs :=
    [{ names := [chars "SANTypeDNS"], typeName := some (chars "SANType"),
       underlyingIsString := true, values := [ValueExpr.stringLit] },
     { names := [chars "ColorRed"], typeName := some (chars "Color"),
       underlyingIsString := true, values := [ValueExpr.stringLit] },
     { names := [chars "PriorityLow"], typeName := some (chars "Priority"),
       underlyingIsString := false, values := [ValueExpr.intLit] }]

end enumiota

namespace structfieldorder

/-- The shape of a struct field's type expression, as far as
`categorizeField` and `isSyncType` inspect it: a selector `x.sel` whose
operand is an identifier, a channel type, a plain identifier, or anything
else. -/
inductive TypeExpr where
  | sel (x selName : List Char)
  | chanType
  | ident (name : List Char)
  | otherExpr
deriving DecidableEq

/-- `fieldCategory` from `analyzers/structfieldorder`, with the `iota`
ranking of the source. -/
inductive fieldCategory where
  | categoryUnknown
  | categoryLogger
  | categoryMetrics
  | categoryDependency
  | categoryData
  | categorySync
deriving DecidableEq

/-- The numeric value the Go `iota` gives each category; `cat < lastCategory`
in the source compares these. -/
def catRank : fieldCategory → Nat
  | fieldCategory.categoryUnknown => 0
  | fieldCategory.categoryLogger => 1
  | fieldCategory.categoryMetrics => 2
  | fieldCategory.categoryDependency => 3
  | fieldCategory.categoryData => 4
  | fieldCategory.categorySync => 5

/-- `isSyncType`: a selector on the `sync` package naming one of the
synchronization primitives. -/
def isSyncType : TypeExpr → Bool
  | TypeExpr.sel x selName =>
    x == chars "sync" &&
      [chars "Mutex", chars "RWMutex", chars "WaitGroup", chars "Once",
       chars "Cond", chars "Pool", chars "Map"].contains selName
  | _ => false

/-- The logger branch of `categorizeField` (on the lower-cased name). -/
def isLoggerFieldName (lowerName : List Char) : Bool :=
  lowerName == chars "log" || lowerName == chars "logger" ||
    hasSuf lowerName (chars "log") || hasSuf lowerName (chars "logger")

/-- The metrics branch of `categorizeField` (on the lower-cased name). -/
def isMetricsFieldName (lowerName : List Char) : Bool :=
  lowerName == chars "metrics" || lowerName == chars "monitor" ||
    hasSuf lowerName (chars "metrics")

/-- The name-pattern synchronization branch of `categorizeField` (on the
lower-cased name). -/
def isSyncFieldName (lowerName : List Char) : Bool :=
  lowerName == chars "mu" || lowerName == chars "mutex" ||
    lowerName == chars "lock" || lowerName == chars "wg" ||
    hasSuf lowerName (chars "mu") || hasSuf lowerName (chars "lock") ||
    hasSuf lowerName (chars "mutex")

/-- The dependency branch of `categorizeField` (on the lower-cased name). -/
def isDependencyFieldName (lowerName : List Char) : Bool :=
  hasSuf lowerName (chars "client") || hasSuf lowerName (chars "service") ||
    hasSuf lowerName (chars "provider") || hasSuf lowerName (chars "handler") ||
    lowerName == chars "db" || lowerName == chars "database" ||
    lowerName == chars "store" || lowerName == chars "cache" ||
    lowerName == chars "repo" || lowerName == chars "repository"

/-- The channel test of `categorizeField`. -/
def isChanType : TypeExpr → Bool
  | TypeExpr.chanType => true
  | _ => false

/-- `categorizeField` from `analyzers/structfieldorder`: name/type
heuristics tried in the source's order (logger, metrics, sync type, sync
name, channel, dependency, default data). -/
def categorizeField (name : List Char) (typ : TypeExpr) : fieldCategory :=
  let lowerName := lowerStr name
  if isLoggerFieldName lowerName then fieldCategory.categoryLogger
  else if isMetricsFieldName lowerName then fieldCategory.categoryMetrics
  else if isSyncType typ then fieldCategory.categorySync
  else if isSyncFieldName lowerName then fieldCategory.categorySync
  else if isChanType typ then fieldCategory.categorySync
  else if isDependencyFieldName lowerName then fieldCategory.categoryDependency
  else fieldCategory.categoryData

/-- One field entry of a struct: its (possibly several) names and its type
expression; an embedded field has no names. -/
structure StructField where
  names : List (List Char)
  typ : TypeExpr
deriving DecidableEq

/-- The per-name flattening performed by the two nested loops of
`checkStructFieldOrder` (embedded fields, having no names, contribute
nothing). -/
def flatFields (fs : List StructField) : List (List Char × TypeExpr) :=
  fs.flatMap fun f => f.names.map fun n => (n, f.typ)

/-- The loop body of `checkStructFieldOrder`: walk the (name, type) pairs
carrying the category of the last categorized field, reporting each field
whose category ranks strictly below it. -/
def orderLoop : fieldCategory → List (List Char × TypeExpr) → List (List Char)
  | _, [] => []
  | lastCategory, (name, typ) :: rest =>
    if categorizeField name typ = fieldCategory.categoryUnknown then
      orderLoop lastCategory rest
    else if catRank (categorizeField name typ) < catRank lastCategory then
      name :: orderLoop (categorizeField name typ) rest
    else orderLoop (categorizeField name typ) rest

/-- `checkStructFieldOrder` from `analyzers/structfieldorder`: the names of
the flagged fields of one struct, in order. -/
def checkStructFieldOrder (fs : List StructField) : List (List Char) :=
  if fs.isEmpty then [] else orderLoop fieldCategory.categoryUnknown (flatFields fs)

/-- The category of the field at position `i` of a flattened field list
(`categoryUnknown` when out of range); used to state the claim's
"category already seen earlier" reading. -/
def catAt (fs : List (List Char × TypeExpr)) (i : Nat) : fieldCategory :=
  match fs.get? i with
  | some pr => categorizeField pr.1 pr.2
  | none => fieldCategory.categoryUnknown

/-- The claim's predicate: the field at position `i` is flagged iff its
category strictly precedes the category of SOME earlier field of the same
struct. -/
def claimFlaggedAt (fs : List (List Char × TypeExpr)) (i : Nat) : Bool :=
  (List.range i).any fun j => decide (catRank (catAt fs i) < catRank (catAt fs j))

/-- The flagging rule the code actually implements: a field is flagged iff
its category strictly precedes the category of the immediately preceding
named field (every named field is categorized, the default being data). -/
def adjacentFlags (fs : List (List Char × TypeExpr)) : List (List Char) :=
  (fs.zip fs.tail).filterMap fun pr =>
    if catRank (categorizeField pr.2.1 pr.2.2) < catRank (categorizeField pr.1.1 pr.1.2)
    then some pr.2.1 else none

/-- A struct like `BadService` of the analyzer's testdata: a sync.Mutex
first, then a logger-named field, then a data field.  The code flags only
`log`; the claim's reading would flag `config` as well (data strictly
precedes the synchronization category seen at `mu`). -/
def mixedStruct : List StructField :=
  [{ names := [chars "mu"], typ := TypeExpr.sel (chars "sync") (chars "Mutex") },
   { names := [chars "log"], typ := TypeExpr.otherExpr },
   { names := [chars "config"], typ := TypeExpr.otherExpr }]

/-- A struct whose categorized fields appear in the order logger, metrics,
dependency, data, synchronization. -/
def orderedStruct : List StructField :=
  [{ names := [chars "log"], typ := TypeExpr.otherExpr },
   { names := [chars "metrics"], typ := TypeExpr.otherExpr },
   { names := [chars "client"], typ := TypeExpr.otherExpr },
   { names := [chars "name"], typ := TypeExpr.ident (chars "string") },
   { names := [chars "mu"], typ := TypeExpr.sel (chars "sync") (chars "Mutex") },
   { names := [chars "done"], typ := TypeExpr.chanType }]

end structfieldorder

namespace capitalcomment

/-- Stripping of the comment markers and surrounding space performed at the
top of `checkComment`. -/
def cleanComment (text : List Char) : List Char :=
  trimSpace (dropSuf (dropPre (dropPre text (chars "//")) (chars "/*")) (chars "*/"))

/-- The license-header fragments `shouldSkip` searches for (lower-cased
text). -/
def licensePatterns : List (List Char) :=
  [chars "you may not use this file",
   chars "distributed under the license",
   chars "without warranties or conditions",
   chars "limitations under the license",
   chars "permission is hereby granted",
   chars "the above copyright notice",
   chars "in no event shall",
   chars "as is"]

/-- `shouldSkip` from `analyzers/capitalcomment`: nolint directives,
todo-style markers, URLs, build tags and go directives, and license
boilerplate. -/
def shouldSkip (text : List Char) : Bool :=
  hasPre (lowerStr text) (chars "nolint") ||
  [chars "todo", chars "fixme", chars "hack", chars "xxx", chars "bug"].any
    (fun p => hasPre (lowerStr text) p) ||
  containsSub text (chars "://") ||
  hasPre text (chars "+build") || hasPre text (chars "go:") ||
  licensePatterns.any (fun p => containsSub (lowerStr text) p)

/-- `commonEnglishWords` from `analyzers/capitalcomment`: words that are
never treated as identifiers. -/
def commonEnglishWords : List (List Char) :=
  [chars "this", chars "that", chars "these", chars "those",
   chars "it", chars "its", chars "the", chars "a", chars "an",
   chars "here", chars "there", chars "where", chars "when",
   chars "see", chars "use", chars "set", chars "get",
   chars "all", chars "any", chars "some", chars "each",
   chars "for", chars "not", chars "but", chars "and", chars "or"]

/-- The follower-verb list of `looksLikeIdentifier`. -/
def identifierFollowers : List (List Char) :=
  [chars "is", chars "are", chars "was", chars "were", chars "has",
   chars "have", chars "had", chars "contains", chars "returns",
   chars "holds", chars "stores", chars "represents", chars "defines",
   chars "implements", chars "provides", chars "specifies"]

/-- The camelCase test of `looksLikeIdentifier`: an upper-case character
after the first position. -/
def hasInternalUpper (w : List Char) : Bool := (w.drop 1).any isUpperGo

/-- `looksLikeIdentifier` from `analyzers/capitalcomment`: the first word
is not a common English word and either contains an underscore, has an
internal upper-case character, or is followed by a descriptive verb. -/
def looksLikeIdentifier (text : List Char) : Bool :=
  match fieldsGo text with
  | [] => false
  | firstWord :: rest =>
    if commonEnglishWords.contains (lowerStr firstWord) then false
    else if containsSub firstWord (chars "_") then true
    else if hasInternalUpper firstWord then true
    else
      match rest with
      | [] => false
      | w2 :: _ => identifierFollowers.contains (lowerStr w2)

/-- `checkComment` from `analyzers/capitalcomment`, as the predicate "a
diagnostic is reported for this comment's raw text". -/
def checkComment (raw : List Char) : Bool :=
  match cleanComment raw with
  | [] => false
  | firstRune :: rest =>
    if isPunctGo firstRune || isDigitGo firstRune then false
    else if shouldSkip (firstRune :: rest) then false
    else if isLowerGo firstRune then
      if looksLikeIdentifier (firstRune :: rest) then false else true
    else false

/-- The claim's "identifier-like" condition on the first word: internal
case change, separator character, or followed by a descriptive verb from
the fixed list. -/
def claimIdentifierLike (text : List Char) : Bool :=
  match fieldsGo text with
  | [] => false
  | firstWord :: rest =>
    containsSub firstWord (chars "_") || hasInternalUpper firstWord ||
      (match rest with
       | [] => false
       | w2 :: _ => identifierFollowers.contains (lowerStr w2))

/-- The claim's "first word is a common function word" condition. -/
def claimCommonWord (text : List Char) : Bool :=
  match fieldsGo text with
  | [] => false
  | firstWord :: _ => commonEnglishWords.contains (lowerStr firstWord)

end capitalcomment

namespace currentyear

/-- The character class of the regular expression's `\s` (`[ \t\n\f\r]`). -/
def isSpaceRe (c : Char) : Bool :=
  c == ' ' || c == '\t' || c == '\n' || c == Char.ofNat 12 || c == '\r'

/-- The character class of the regular expression's `\d`. -/
def isDigitRe (c : Char) : Bool := '0' ≤ c && c ≤ '9'

/-- Match `\d{4}` at the head of the input, returning the year value and
the remaining input. -/
def digit4 (cs : List Char) : Option (Nat × List Char) :=
  match cs with
  | a :: b :: c :: d :: rest =>
    if isDigitRe a && isDigitRe b && isDigitRe c && isDigitRe d then
      some ((a.toNat - 48) * 1000 + (b.toNat - 48) * 100 +
        (c.toNat - 48) * 10 + (d.toNat - 48), rest)
    else none
  | _ => none

/-- The part of `copyrightYearPattern` after the `[Cc]opyright` keyword:
`\s*(?:©|\(c\))?\s*(?:\d{4}\s*-\s*)?(\d{4})`, with the backtracking the Go
engine performs when the optional range group is followed by no second
4-digit year.  Returns the captured year. -/
def yearAfterMarker (cs : List Char) : Option Nat :=
  let s1 := cs.dropWhile isSpaceRe
  let s2 :=
    if hasPre s1 (chars "©") then s1.drop 1
    else if hasPre s1 (chars "(c)") then s1.drop 3
    else s1
  let s3 := s2.dropWhile isSpaceRe
  match digit4 s3 with
  | none => none
  | some (y1, rest) =>
    match (rest.dropWhile isSpaceRe) with
    | '-' :: r2 =>
      match digit4 (r2.dropWhile isSpaceRe) with
      | some (y2, _) => some y2
      | none => some y1
    | _ => some y1

/-- `copyrightYearPattern.FindStringSubmatch` reduced to its captured year:
scan for the leftmost position at which the whole pattern matches (a
`[Cc]opyright` keyword from which a year can be parsed). -/
def findYear : List Char → Option Nat
  | [] => none
  | c :: rest =>
    if (c == 'C' || c == 'c') && hasPre rest (chars "opyright") then
      match yearAfterMarker (rest.drop 8) with
      | some y => some y
      | none => findYear rest
    else findYear rest

/-- One comment group as the currentyear analyzer reads it: its source
position and the collected text `cg.Text()` returns. -/
structure CommentGroup where
  pos : Nat
  text : List Char
deriving DecidableEq

/-- One source file: its comment groups (in source order, as in
`ast.File.Comments`) and the position of the `package` keyword. -/
structure File where
  comments : List CommentGroup
  packagePos : Nat
deriving DecidableEq

/-- The diagnostic `checkFile` reports: its position and the found and
expected years cited in the message. -/
structure Diagnostic where
  pos : Nat
  foundYear : Nat
  expectedYear : Nat
deriving DecidableEq

/-- The first comment group preceding the package declaration, as selected
by the loop in `checkFile`. -/
def headerComment (f : File) : Option CommentGroup :=
  f.comments.find? fun cg => decide (cg.pos < f.packagePos)

/-- `checkFile` from `analyzers/currentyear`: at most one diagnostic per
file, produced iff the header comment yields a year strictly earlier than
the current year. -/
def checkFile (f : File) (currentYear : Nat) : Option Diagnostic :=
  match headerComment f with
  | none => none
  | some cg =>
    match findYear cg.text with
    | none => none
    | some year =>
      if year < currentYear then some ⟨cg.pos, year, currentYear⟩ else none

/-- A file whose header cites 2020, before its package keyword at 100. -/
def exampleFileOld : File :=
  { comments := [{ pos := 0, text := chars "Copyright © 2020 Attestant Limited." }],
    packagePos := 100 }

/-- A file whose header cites 2026. -/
def exampleFileNew : File :=
  { comments := [{ pos := 0, text := chars "Copyright © 2026 Attestant Limited." }],
    packagePos := 100 }

end currentyear

namespace funcopts

/-- The shape of a parameter's type expression, as far as `isContextParam`
and `isOptionsParam` inspect it: a selector `x.sel` with identifier
operand, a variadic `...T` with `T` an identifier, a variadic `...func`, a
variadic of any other element type, or anything else. -/
inductive ParamType where
  | sel (x selName : List Char)
  | ellipsisIdent (name : List Char)
  | ellipsisFunc
  | ellipsisOther
  | otherType
deriving DecidableEq

/-- One parameter field: its names (possibly several, possibly none) and
its type. -/
structure Param where
  names : List (List Char)
  typ : ParamType
deriving DecidableEq

/-- The shape of one result entry: `*T` with `T` an identifier, a plain
identifier, or anything else (including `*e` with a non-identifier `e`). -/
inductive ResultType where
  | star (name : List Char)
  | identR (name : List Char)
  | otherR
deriving DecidableEq

/-- One function declaration as the analyzer reads it. -/
structure FuncDecl where
  name : List Char
  hasRecv : Bool
  params : List Param
  results : List ResultType
deriving DecidableEq

/-- One type declaration: its name and whether it is a struct type. -/
structure TypeDecl where
  name : List Char
  isStruct : Bool
deriving DecidableEq

/-- A unit (package) as the funcopts analyzer reads it. -/
structure Unit where
  types : List TypeDecl
  funcs : List FuncDecl
deriving DecidableEq

/-- `serviceTypeSuffixes` from `analyzers/funcopts`. -/
def serviceTypeSuffixes : List (List Char) :=
  [chars "Service", chars "Manager", chars "Handler", chars "Controller",
   chars "Provider", chars "Client", chars "Server"]

/-- `isServiceTypeName`: the name ends with a service-like suffix. -/
def isServiceTypeName (name : List Char) : Bool :=
  serviceTypeSuffixes.any fun suffix => hasSuf name suffix

/-- The `serviceTypes` set collected by the first loop of `run`: names of
struct type declarations with a service-like suffix. -/
def serviceTypes (u : Unit) : List (List Char) :=
  (u.types.filter fun t => t.isStruct && isServiceTypeName t.name).map (·.name)

/-- `getReturnTypeName`: the first result that is a pointer-to-identifier
or an identifier gives the name; otherwise the empty string. -/
def getReturnTypeName (f : FuncDecl) : List Char :=
  match f.results.findSome? (fun r =>
    match r with
    | ResultType.star n => some n
    | ResultType.identR n => some n
    | ResultType.otherR => none) with
  | some n => n
  | none => []

/-- `isContextParam`: the parameter type is the selector
`context.Context`. -/
def isContextParam (p : Param) : Bool :=
  match p.typ with
  | ParamType.sel x selName => x == chars "context" && selName == chars "Context"
  | _ => false

/-- `isOptionsParam`: a variadic parameter whose element type is an
identifier suffixed `Option`/`Opt`, or a variadic function type. -/
def isOptionsParam (p : Param) : Bool :=
  match p.typ with
  | ParamType.ellipsisIdent n => hasSuf n (chars "Option") || hasSuf n (chars "Opt")
  | ParamType.ellipsisFunc => true
  | _ => false

/-- The parameter loop of `shouldSuggestFuncOpts`: skip context parameters,
abort (`none`) at an options parameter, count the names of every other
parameter (at least one per field). -/
def countNonCtx : List Param → Option Nat
  | [] => some 0
  | p :: rest =>
    if isContextParam p then countNonCtx rest
    else if isOptionsParam p then none
    else (countNonCtx rest).map
      (· + (if p.names.length == 0 then 1 else p.names.length))

/-- `shouldSuggestFuncOpts`: more than three counted parameters, and no
options parameter encountered. -/
def shouldSuggestFuncOpts (f : FuncDecl) : Bool :=
  match countNonCtx f.params with
  | none => false
  | some n => decide (3 < n)

/-- The flagging condition of the second loop of `run` for one function. -/
def flagFunc (svc : List (List Char)) (f : FuncDecl) : Bool :=
  !f.hasRecv &&
    (hasPre f.name (chars "New") || hasPre f.name (chars "Create")) &&
    !(getReturnTypeName f == ([] : List Char)) && svc.contains (getReturnTypeName f) &&
    shouldSuggestFuncOpts f

/-- `run` from `analyzers/funcopts`: the flagged constructor functions of
one unit. -/
def run (u : Unit) : List FuncDecl :=
  u.funcs.filter (flagFunc (serviceTypes u))

/-- The claim's count of non-context parameters: every non-context
parameter field contributes the number of its declared names (one when it
declares none). -/
def specParamCount (params : List Param) : Nat :=
  ((params.filter fun p => !isContextParam p).map
    fun p => max p.names.length 1).sum

/-- The unit of the analyzer's testdata: five service-suffixed structs and
their constructors. -/
def exampleUnit : Unit where
  types :=
    [{ name := chars "UserService", isStruct := true },
     { name := chars "OrderHandler", isStruct := true },
     { name := chars "PaymentService", isStruct := true },
     { name := chars "Option", isStruct := false },
     { name := chars "NotificationManager", isStruct := true },
     { name := chars "Helper", isStruct := true }]
  funcs :=
    [{ name := chars "NewUserService", hasRecv := false,
       params := [{ names := [chars "db", chars "cache", chars "logger", chars "metrics"],
                    typ := ParamType.otherType }],
       results := [ResultType.star (chars "UserService")] },
     { name := chars "NewOrderHandler", hasRecv := false,
       params := [{ names := [chars "ctx"],
                    typ := ParamType.sel (chars "context") (chars "Context") },
                  { names := [chars "db", chars "cache", chars "logger", chars "validator"],
                    typ := ParamType.otherType }],
       results := [ResultType.star (chars "OrderHandler")] },
     { name := chars "NewPaymentService", hasRecv := false,
       params := [{ names := [chars "opts"], typ := ParamType.ellipsisIdent (chars "Option") }],
       results := [ResultType.star (chars "PaymentService")] },
     { name := chars "NewNotificationManager", hasRecv := false,
       params := [{ names := [chars "db", chars "logger"], typ := ParamType.otherType }],
       results := [ResultType.star (chars "NotificationManager")] },
     { name := chars "NewHelper", hasRecv := false,
       params := [{ names := [chars "a", chars "b", chars "c", chars "d"],
                    typ := ParamType.otherType }],
       results := [ResultType.star (chars "Helper")] },
     { name := chars "ProcessData", hasRecv := false,
       params := [{ names := [chars "a", chars "b", chars "c", chars "d", chars "e"],
                    typ := ParamType.otherType }],
       results := [] }]

end funcopts

namespace interfacecheck

/-- One method with its name and an abstract signature identifier; two
methods match when both components are equal. -/
structure MethodSig where
  name : List Char
  sig : Nat
deriving DecidableEq

/-- The underlying type of a package-scope `TypeName`, as far as the
collection `switch` in `run` distinguishes it: an interface (with its
required methods), a struct, or anything else. -/
inductive UnderlyingKind where
  | ifaceU (methods : List MethodSig)
  | structU
  | otherU
deriving DecidableEq

/-- One entry of the package scope: its name, whether the object is a
`*types.TypeName`, its underlying kind, and the resolved method sets of the
named type and of a pointer to it (what `types.Implements` consults for
`structType` and `ptrType`). -/
structure ScopeEntry where
  name : List Char
  isTypeName : Bool
  underlying : UnderlyingKind
  valueMethods : List MethodSig
  ptrMethods : List MethodSig
deriving DecidableEq

/-- The expression shapes `getInterfaceName` and `getStructNameFromNilCast`
inspect: identifiers, selectors, calls, parenthesized and starred
expressions, and anything else. -/
inductive Expr where
  | identE (name : List Char)
  | selE (x sel : List Char)
  | call (fn : Expr) (args : List Expr)
  | paren (e : Expr)
  | star (e : Expr)
  | otherE

/-- One `var` value spec as `collectExistingChecks` reads it. -/
structure ValueSpec where
  names : List (List Char)
  typ : Expr
  values : List Expr

/-- A unit (package) as the interfacecheck analyzer reads it: the package
scope, the `var` declarations of its files, and the type specs of its files
with their positions (what `findStructPos` scans). -/
structure Unit where
  scope : List ScopeEntry
  varSpecs : List ValueSpec
  typeSpecs : List (List Char × Nat)

/-- One reported diagnostic: its position and the struct and interface
names cited in the message. -/
structure Diagnostic where
  pos : Nat
  structName : List Char
  interfaceName : List Char
deriving DecidableEq

/-- The struct arm of the collection `switch` in `run`. -/
def isStructEntry (e : ScopeEntry) : Bool :=
  e.isTypeName &&
    (match e.underlying with
     | UnderlyingKind.structU => true
     | _ => false)

/-- The interface arm of the collection `switch` in `run`: empty interfaces
are skipped (`NumMethods() > 0`). -/
def isIfaceEntry (e : ScopeEntry) : Bool :=
  e.isTypeName &&
    (match e.underlying with
     | UnderlyingKind.ifaceU ms => 0 < ms.length
     | _ => false)

/-- The required methods of an interface entry. -/
def ifaceMethods (e : ScopeEntry) : List MethodSig :=
  match e.underlying with
  | UnderlyingKind.ifaceU ms => ms
  | _ => []

/-- The keys of the `structs` map built by `run` (Go maps are keyed by the
unique scope name). -/
def collectStructNames (u : Unit) : List (List Char) :=
  (u.scope.filter isStructEntry).map (·.name)

/-- The entries of the `interfaces` map built by `run`. -/
def collectIfaces (u : Unit) : List ScopeEntry :=
  u.scope.filter isIfaceEntry

/-- `pass.Pkg.Scope().Lookup`. -/
def lookupScope (u : Unit) (name : List Char) : Option ScopeEntry :=
  u.scope.find? fun e => e.name == name

/-- `types.Implements`: every required method of the interface is present
in the method set with a matching signature. -/
def implementsIface (ms ifaceMs : List MethodSig) : Bool :=
  ifaceMs.all fun m => ms.contains m

/-- `getInterfaceName` from the interfacecheck source: an identifier's
name, a selector's member name, otherwise the empty string. -/
def getInterfaceName : Expr → List Char
  | Expr.identE n => n
  | Expr.selE _ sel => sel
  | _ => []

/-- `getStructNameFromNilCast` from the interfacecheck source: a single
value of the shape `(*T)(nil)` yields `T`'s name, otherwise the empty
string. -/
def getStructNameFromNilCast (values : List Expr) : List Char :=
  match values with
  | [Expr.call fn args] =>
    (match args with
     | [Expr.identE n] =>
       if n == chars "nil" then
         match fn with
         | Expr.paren (Expr.star (Expr.identE x)) => x
         | Expr.paren (Expr.star (Expr.selE _ sel)) => sel
         | _ => []
       else []
     | _ => [])
  | _ => []

/-- `collectExistingChecks` from the interfacecheck source: the
`(interface, struct)` name pairs of all `var _ Interface = (*Struct)(nil)`
declarations (the map's key `iface + ":" + struct` is modelled as the
pair). -/
def collectExistingChecks (u : Unit) : List (List Char × List Char) :=
  u.varSpecs.filterMap fun vs =>
    if vs.names == [chars "_"] then
      if getInterfaceName vs.typ == ([] : List Char) then none
      else if getStructNameFromNilCast vs.values == ([] : List Char) then none
      else some (getInterfaceName vs.typ, getStructNameFromNilCast vs.values)
    else none

/-- `findStructPos` from the interfacecheck source: the position of the
first type spec with the given name, `none` for `token.NoPos`. -/
def findStructPos (u : Unit) (name : List Char) : Option Nat :=
  (u.typeSpecs.find? fun ts => ts.1 == name).map (·.2)

/-- The body of the nested loop in `run` for one `(structName, interface)`
visit: look the struct up in the scope, test value and pointer
implementation, skip covered pairs, and report at the struct's type-spec
position. -/
def reportFor (u : Unit) (sName : List Char) (ie : ScopeEntry) : Option Diagnostic :=
  match lookupScope u sName with
  | none => none
  | some se =>
    if !implementsIface se.valueMethods (ifaceMethods ie) &&
        !implementsIface se.ptrMethods (ifaceMethods ie) then none
    else if (collectExistingChecks u).contains (ie.name, sName) then none
    else
      match findStructPos u sName with
      | none => none
      | some pos => some { pos := pos, structName := sName, interfaceName := ie.name }

/-- `run` from the interfacecheck source.  The two `range` loops iterate Go
maps, whose order is unspecified: `structOrder` and `ifaceOrder` are the
iteration orders actually taken, constrained (in the theorems) to be
permutations of the collected keys. -/
def run (u : Unit) (structOrder : List (List Char)) (ifaceOrder : List ScopeEntry) :
    List Diagnostic :=
  structOrder.flatMap fun sName => ifaceOrder.filterMap fun ie => reportFor u sName ie

/-- The unit of the interfacecheck test fixture: `Reader`/`Writer`/`Closer`
interfaces, an empty interface, `GoodReader` (with an assertion),
`BadWriter`, `BadCloser`, and `Helper`. -/
def exampleUnit : Unit where
  scope :=
    [{ name := chars "Reader", isTypeName := true,
       underlying := UnderlyingKind.ifaceU [{ name := chars "Read", sig := 0 }],
       valueMethods := [], ptrMethods := [] },
     { name := chars "Writer", isTypeName := true,
       underlying := UnderlyingKind.ifaceU [{ name := chars "Write", sig := 1 }],
       valueMethods := [], ptrMethods := [] },
     { name := chars "Closer", isTypeName := true,
       underlying := UnderlyingKind.ifaceU [{ name := chars "Close", sig := 2 }],
       valueMethods := [], ptrMethods := [] },
     { name := chars "EmptyInterface", isTypeName := true,
       underlying := UnderlyingKind.ifaceU [],
       valueMethods := [], ptrMethods := [] },
     { name := chars "GoodReader", isTypeName := true,
       underlying := UnderlyingKind.structU,
       valueMethods := [], ptrMethods := [{ name := chars "Read", sig := 0 }] },
     { name := chars "BadWriter", isTypeName := true,
       underlying := UnderlyingKind.structU,
       valueMethods := [], ptrMethods := [{ name := chars "Write", sig := 1 }] },
     { name := chars "BadCloser", isTypeName := true,
       underlying := UnderlyingKind.structU,
       valueMethods := [], ptrMethods := [{ name := chars "Close", sig := 2 }] },
     { name := chars "Helper", isTypeName := true,
       underlying := UnderlyingKind.structU,
       valueMethods := [], ptrMethods := [{ name := chars "DoSomething", sig := 3 }] }]
  varSpecs :=
    [{ names := [chars "_"], typ := Expr.identE (chars "Reader"),
       values := [Expr.call (Expr.paren (Expr.star (Expr.identE (chars "GoodReader"))))
         [Expr.identE (chars "nil")]] }]
  typeSpecs :=
    [(chars "Reader", 0), (chars "Writer", 1), (chars "Closer", 2),
     (chars "EmptyInterface", 3), (chars "GoodReader", 4),
     (chars "BadWriter", 5), (chars "BadCloser", 6), (chars "Helper", 7)]

end interfacecheck

end AttgoLinter

namespace AttgoLinter

theorem hasSuf_iff (s suf : List Char) : hasSuf s suf = true ↔ ∃ t, t ++ suf = s := by
  rw [hasSuf, List.isSuffixOf_iff_suffix]
  exact Iff.rfl

theorem dropSuf_append (pre p : List Char) : dropSuf (pre ++ p) p = pre := by
  rw [dropSuf, if_pos]
  · rw [List.length_append, Nat.add_sub_cancel, List.take_left]
  · rw [List.isSuffixOf_iff_suffix]; exact ⟨pre, rfl⟩

theorem hasPre_star_iff (s : List Char) :
    hasPre s (chars "*") = true ↔ s.head? = some '*' := by
  cases s with
  | nil => simp [hasPre, chars, List.isPrefixOf]
  | cons a s =>
    show (('*' == a) && List.isPrefixOf [] s) = true ↔ (a :: s).head? = some '*'
    simp only [List.isPrefixOf, Bool.and_true, beq_iff_eq, List.head?, Option.some.injEq]
    exact ⟨fun h => h.symm, fun h => h.symm⟩

theorem dropPre_star (s : List Char) (h : s.head? = some '*') :
    dropPre s (chars "*") = s.drop 1 := by
  rw [dropPre, if_pos]
  · rfl
  · cases s with
    | nil => simp at h
    | cons a s =>
      simp only [List.head?, Option.some.injEq] at h
      subst h
      show ('*' == '*' && List.isPrefixOf [] s) = true
      simp [List.isPrefixOf]

namespace nopkglogger

theorem matchSuffixBoundary_iff (t p : List Char) :
    matchSuffixBoundary t p = true ↔ boundaryMatches t p := by
  constructor
  · intro h
    rw [matchSuffixBoundary] at h
    split at h
    case isTrue hs =>
      obtain ⟨pre, rfl⟩ := (hasSuf_iff t p).mp hs
      rw [dropSuf_append] at h
      refine ⟨pre, rfl, ?_⟩
      simp only [Bool.or_eq_true] at h
      rcases h with (h3 | h4) | h2
      · exact Or.inl (by simpa using h3)
      · obtain ⟨pre2, h5⟩ := (hasSuf_iff pre (chars "/")).mp h4
        exact Or.inr ⟨pre2, '/', h5.symm, Or.inl rfl⟩
      · obtain ⟨pre2, h5⟩ := (hasSuf_iff pre (chars ".")).mp h2
        exact Or.inr ⟨pre2, '.', h5.symm, Or.inr rfl⟩
    case isFalse => exact absurd h (by simp)
  · rintro ⟨pre, rfl, hb⟩
    rw [matchSuffixBoundary, if_pos ((hasSuf_iff _ _).mpr ⟨pre, rfl⟩), dropSuf_append]
    rcases hb with rfl | ⟨pre2, c, rfl, hc⟩
    · simp
    · rcases hc with rfl | rfl
      · have : hasSuf (pre2 ++ ['/']) (chars "/") = true :=
          (hasSuf_iff _ _).mpr ⟨pre2, rfl⟩
        simp [this]
      · have : hasSuf (pre2 ++ ['.']) (chars ".") = true :=
          (hasSuf_iff _ _).mpr ⟨pre2, rfl⟩
        simp [this]

theorem matchTypePattern_iff (t p : List Char) :
    matchTypePattern t p = true ↔ specMatches t p := by
  by_cases hp : p.head? = some '*'
  · by_cases ht : t.head? = some '*'
    · rw [matchTypePattern, if_pos ((hasPre_star_iff p).mpr hp),
        if_neg (by simp [(hasPre_star_iff t).mpr ht])]
      rw [dropPre_star t ht, dropPre_star p hp, matchSuffixBoundary_iff]
      constructor
      · intro hb
        exact Or.inl ⟨hp, ht, hb⟩
      · rintro (⟨_, _, hb⟩ | ⟨hns, _, _⟩)
        · exact hb
        · exact absurd hp hns
    · have ht' : hasPre t (chars "*") = false := by
        rw [← Bool.not_eq_true, hasPre_star_iff]; exact ht
      rw [matchTypePattern, if_pos ((hasPre_star_iff p).mpr hp), if_pos (by simp [ht'])]
      simp only [Bool.false_eq_true, false_iff]
      rintro (⟨_, hts, _⟩ | ⟨hnp, _, _⟩)
      · exact ht hts
      · exact hnp hp
  · have hp' : hasPre p (chars "*") = false := by
      rw [← Bool.not_eq_true, hasPre_star_iff]; exact hp
    by_cases ht : t.head? = some '*'
    · rw [matchTypePattern, if_neg (by simp [hp']), if_pos ((hasPre_star_iff t).mpr ht)]
      simp only [Bool.false_eq_true, false_iff]
      rintro (⟨hps, _, _⟩ | ⟨_, hnt, _⟩)
      · exact hp hps
      · exact hnt ht
    · have ht' : hasPre t (chars "*") = false := by
        rw [← Bool.not_eq_true, hasPre_star_iff]; exact ht
      rw [matchTypePattern, if_neg (by simp [hp']), if_neg (by simp [ht'])]
      rw [matchSuffixBoundary_iff]
      constructor
      · intro hb
        exact Or.inr ⟨hp, ht, hb⟩
      · rintro (⟨hps, _, _⟩ | ⟨_, _, hb⟩)
        · exact absurd hps hp
        · exact hb

theorem isPackageScope_iff (s : DeclScope) :
    isPackageScope s = true ↔ s = DeclScope.unitScope := by
  cases s <;> simp [isPackageScope]

/-- C1: for every unit-scope (package-level) variable declaration, the
LoggerPlacement rule emits a diagnostic iff the variable's resolved type
string matches at least one configured logger pattern under the spec's
matching contract (indirection-marker agreement, then suffix match at a
module-path/member boundary); struct fields and function-local variables
never trigger a diagnostic. -/
theorem loggerPlacement_emits_iff (patterns : List (List Char))
    (decls : List VarDecl) (v : VarDecl) :
    v ∈ run patterns decls ↔
      v ∈ decls ∧ v.scope = DeclScope.unitScope ∧
        ∃ pat ∈ patterns, specMatches v.typeString pat := by
  rw [run, List.mem_filter, Bool.and_eq_true, isPackageScope_iff, isLoggerType,
    List.any_eq_true]
  constructor
  · rintro ⟨h1, h2, pat, hmem, hmatch⟩
    exact ⟨h1, h2, pat, hmem, (matchTypePattern_iff _ _).mp hmatch⟩
  · rintro ⟨h1, h2, pat, hmem, hmatch⟩
    exact ⟨h1, h2, pat, hmem, (matchTypePattern_iff _ _).mpr hmatch⟩

end nopkglogger

namespace enumiota

/-- C2: for every constant declaration in the unit, the EnumEncoding rule
flags the constant iff its declared type's name ends with a configured enum
suffix and is declared in the unit (phase A, independent of
representation), its underlying representation is `string`, and its
assigned value is a string literal; in particular the `SANType` example is
flagged while the `Color` (no suffix match) and `Priority` (non-text
representation) examples are not. -/
theorem enumEncoding_flags_iff :
    (∀ (suffixes : List (List Char)) (u : Unit) (vs : ValueSpec),
      vs ∈ run suffixes u ↔
        vs ∈ u.constSpecs ∧ vs.names ≠ [] ∧
          (∃ tn, vs.typeName = some tn ∧ tn ∈ u.typeNames ∧
            ∃ suffix ∈ suffixes, ∃ stem, stem ++ suffix = tn) ∧
          vs.underlyingIsString = true ∧ ValueExpr.stringLit ∈ vs.values) ∧
    run defaultEnumSuffixes exampleUnit =
      [{ names := [chars "SANTypeDNS"], typeName := some (chars "SANType"),
         underlyingIsString := true, values := [ValueExpr.stringLit] }] := by
  constructor
  · intro suffixes u vs
    rw [run, List.mem_filter]
    constructor
    · rintro ⟨hmem, hchk⟩
      refine ⟨hmem, ?_⟩
      rw [checkConstSpec] at hchk
      split at hchk
      case isTrue => exact absurd hchk (by simp)
      case isFalse hne =>
        split at hchk
        case h_1 => exact absurd hchk (by simp)
        case h_2 tn htn =>
          split at hchk
          case isFalse => exact absurd hchk (by simp)
          case isTrue he =>
            rw [Bool.and_eq_true] at hchk
            obtain ⟨hus, hlit⟩ := hchk
            rw [isEnumType, Bool.and_eq_true] at he
            obtain ⟨hdecl, hsuf⟩ := he
            rw [isEnumTypeName, List.any_eq_true] at hsuf
            obtain ⟨suffix, hs1, hs2⟩ := hsuf
            rw [hasStringLiteralValue, List.any_eq_true] at hlit
            obtain ⟨v, hv1, hv2⟩ := hlit
            rw [beq_iff_eq] at hv2
            subst hv2
            exact ⟨by simpa using hne,
              ⟨tn, htn, by simpa using hdecl, suffix, hs1, (hasSuf_iff tn suffix).mp hs2⟩,
              hus, hv1⟩
    · rintro ⟨hmem, hne, ⟨tn, htn, hdecl, suffix, hs1, stem, hstem⟩, hus, hlit⟩
      refine ⟨hmem, ?_⟩
      rw [checkConstSpec, if_neg (by simpa using hne), htn]
      show (if isEnumType suffixes u.typeNames tn = true then
        vs.underlyingIsString && hasStringLiteralValue vs else false) = true
      rw [if_pos, hus, Bool.true_and, hasStringLiteralValue, List.any_eq_true]
      · exact ⟨ValueExpr.stringLit, hlit, by simp⟩
      · rw [isEnumType, Bool.and_eq_true]
        refine ⟨by simpa using hdecl, ?_⟩
        rw [isEnumTypeName, List.any_eq_true]
        exact ⟨suffix, hs1, (hasSuf_iff tn suffix).mpr ⟨stem, hstem⟩⟩
  · decide

end enumiota

namespace structfieldorder

theorem categorizeField_ne_unknown (name : List Char) (typ : TypeExpr) :
    categorizeField name typ ≠ fieldCategory.categoryUnknown := by
  simp only [categorizeField]
  repeat' split
  all_goals simp

theorem adjacentFlags_cons (a1 b1 : List Char) (a2 b2 : TypeExpr)
    (rest : List (List Char × TypeExpr)) :
    adjacentFlags ((a1, a2) :: (b1, b2) :: rest) =
      (if catRank (categorizeField b1 b2) < catRank (categorizeField a1 a2)
       then [b1] else []) ++ adjacentFlags ((b1, b2) :: rest) := by
  by_cases hlt : catRank (categorizeField b1 b2) < catRank (categorizeField a1 a2)
  · simp [adjacentFlags, hlt]
  · simp [adjacentFlags, hlt]

theorem orderLoop_eq_adjacent (fs : List (List Char × TypeExpr)) :
    ∀ a1 : List Char, ∀ a2 : TypeExpr,
      orderLoop (categorizeField a1 a2) fs = adjacentFlags ((a1, a2) :: fs) := by
  induction fs with
  | nil => intro a1 a2; rfl
  | cons b rest ih =>
    intro a1 a2
    obtain ⟨b1, b2⟩ := b
    rw [adjacentFlags_cons, orderLoop, if_neg (categorizeField_ne_unknown b1 b2)]
    by_cases hlt : catRank (categorizeField b1 b2) < catRank (categorizeField a1 a2)
    · rw [if_pos hlt, if_pos hlt, ih b1 b2]
      rfl
    · rw [if_neg hlt, if_neg hlt, ih b1 b2]
      rfl

/-- C4 counterexample: in a struct whose fields are a `sync.Mutex`, then a
logger field, then a data field, the data field's category strictly
precedes the synchronization category seen earlier (so the claim's reading
flags it), yet the code does not flag it — the code compares only against
the immediately preceding categorized field. -/
theorem fieldOrder_seen_earlier_counterexample :
    claimFlaggedAt (flatFields mixedStruct) 2 = true ∧
    chars "config" ∉ checkStructFieldOrder mixedStruct ∧
    checkStructFieldOrder mixedStruct = [chars "log"] :=
  ⟨by decide, by decide, by decide⟩

/-- C4 amended: walking named fields in declared order, the FieldOrder rule
flags exactly those fields whose category strictly precedes, on the fixed
ranking, the category of the immediately preceding named field (not any
category seen earlier); a struct whose categorized fields appear in the
order logger, metrics, dependency, data, synchronization yields zero
diagnostics. -/
theorem fieldOrder_flags_adjacent_inversions :
    (∀ fs : List StructField, checkStructFieldOrder fs = adjacentFlags (flatFields fs)) ∧
    checkStructFieldOrder orderedStruct = [] := by
  constructor
  · intro fs
    rw [checkStructFieldOrder]
    by_cases hfs : fs.isEmpty
    · rw [if_pos hfs]
      have h0 : fs = [] := by simpa using hfs
      subst h0
      rfl
    · rw [if_neg hfs]
      cases hf : flatFields fs with
      | nil => rfl
      | cons a rest =>
        obtain ⟨a1, a2⟩ := a
        rw [orderLoop, if_neg (categorizeField_ne_unknown a1 a2),
          if_neg (show ¬catRank (categorizeField a1 a2) <
            catRank fieldCategory.categoryUnknown from Nat.not_lt_zero _)]
        exact orderLoop_eq_adjacent rest a1 a2
  · decide

/-- C7 counterexample: a field named `log` whose type is the
synchronization primitive `sync.Mutex` is classified as a logger field, not
a synchronization field — the name heuristics run before the type check. -/
theorem categorize_sync_name_counterexample :
    isSyncType (TypeExpr.sel (chars "sync") (chars "Mutex")) = true ∧
    categorizeField (chars "log") (TypeExpr.sel (chars "sync") (chars "Mutex")) =
      fieldCategory.categoryLogger ∧
    fieldCategory.categoryLogger ≠ fieldCategory.categorySync := by
  refine ⟨by decide, by decide, by decide⟩

/-- C7 amended: a field whose type is a synchronization primitive or a
channel type is classified as synchronization provided its name matches
neither the logger nor the metrics name heuristics (which take precedence);
a field matching no heuristic defaults to the data category. -/
theorem categorize_sync_amended (name : List Char) (typ : TypeExpr) :
    (isLoggerFieldName (lowerStr name) = false →
     isMetricsFieldName (lowerStr name) = false →
     (isSyncType typ = true ∨ typ = TypeExpr.chanType) →
     categorizeField name typ = fieldCategory.categorySync) ∧
    (isLoggerFieldName (lowerStr name) = false →
     isMetricsFieldName (lowerStr name) = false →
     isSyncFieldName (lowerStr name) = false →
     isDependencyFieldName (lowerStr name) = false →
     isSyncType typ = false → typ ≠ TypeExpr.chanType →
     categorizeField name typ = fieldCategory.categoryData) := by
  constructor
  · intro hl hm hst
    rcases hst with hs | hc
    · simp [categorizeField, hl, hm, hs]
    · subst hc
      simp [categorizeField, hl, hm, isSyncType, isChanType, ite_self]
  · intro hl hm hsn hdep hst hchan
    have hc : isChanType typ = false := by
      cases typ <;> simp [isChanType] at hchan ⊢
    simp [categorizeField, hl, hm, hsn, hdep, hst, hc]

/-- Witness for the amended C7 theorem at concrete fields: a channel field
named `done` is synchronization; a plain string field named `name` is
data. -/
theorem categorize_sync_amended_witness :
    categorizeField (chars "done") TypeExpr.chanType = fieldCategory.categorySync ∧
    categorizeField (chars "name") (TypeExpr.ident (chars "string")) =
      fieldCategory.categoryData :=
  ⟨(categorize_sync_amended (chars "done") TypeExpr.chanType).1
      (by decide) (by decide) (Or.inr rfl),
   (categorize_sync_amended (chars "name") (TypeExpr.ident (chars "string"))).2
      (by decide) (by decide) (by decide) (by decide) (by decide) (by decide)⟩

end structfieldorder

namespace capitalcomment

theorem looksLikeIdentifier_eq (text : List Char) :
    looksLikeIdentifier text = (claimIdentifierLike text && !claimCommonWord text) := by
  rw [looksLikeIdentifier, claimIdentifierLike, claimCommonWord]
  cases h : fieldsGo text with
  | nil => rfl
  | cons w rest =>
    dsimp only
    cases hc : commonEnglishWords.contains (lowerStr w) with
    | true => simp
    | false =>
      cases h1 : containsSub w (chars "_") with
      | true => simp
      | false =>
        cases h2 : hasInternalUpper w with
        | true => simp
        | false =>
          cases rest with
          | nil => simp
          | cons w2 rest2 => simp

theorem checkComment_cons_iff (raw : List Char) (c : Char) (rest : List Char)
    (hcc : cleanComment raw = c :: rest) :
    checkComment raw = true ↔
      (isPunctGo c = false ∧ isDigitGo c = false ∧ shouldSkip (c :: rest) = false ∧
       isLowerGo c = true ∧ looksLikeIdentifier (c :: rest) = false) := by
  rw [checkComment, hcc]
  dsimp only
  by_cases hp : (isPunctGo c || isDigitGo c) = true
  · rw [if_pos hp]
    simp only [Bool.false_eq_true, false_iff]
    rintro ⟨h1, h2, _⟩
    simp [h1, h2] at hp
  · rw [if_neg hp]
    simp only [Bool.or_eq_true, not_or, Bool.not_eq_true] at hp
    obtain ⟨hp1, hp2⟩ := hp
    by_cases hs : shouldSkip (c :: rest) = true
    · rw [if_pos hs]
      simp [hs]
    · have hs' : shouldSkip (c :: rest) = false := by simpa using hs
      rw [if_neg hs]
      by_cases hl : isLowerGo c = true
      · rw [if_pos hl]
        by_cases hid : looksLikeIdentifier (c :: rest) = true
        · rw [if_pos hid]
          simp [hid]
        · have hid' : looksLikeIdentifier (c :: rest) = false := by simpa using hid
          rw [if_neg hid]
          simp [hp1, hp2, hs', hl, hid']
      · have hl' : isLowerGo c = false := by simpa using hl
        rw [if_neg hl]
        simp [hl']

/-- C6 counterexample: the comment `// see the documentation` starts with a
common function word from the fixed short list ("see"), is not skipped for
any other reason, and is not identifier-like, yet the rule flags it — the
common-word list forces flagging rather than preventing it. -/
theorem commentStyle_common_word_counterexample :
    cleanComment (chars "// see the documentation") = chars "see the documentation" ∧
    isPunctGo 's' = false ∧ isDigitGo 's' = false ∧
    shouldSkip (chars "see the documentation") = false ∧
    claimCommonWord (chars "see the documentation") = true ∧
    claimIdentifierLike (chars "see the documentation") = false ∧
    checkComment (chars "// see the documentation") = true := by
  refine ⟨by decide, by decide, by decide, by decide, by decide, by decide, by decide⟩

/-- C6 amended: for a comment whose cleaned first line is non-empty, the
CommentStyle rule flags it iff the first character is neither punctuation
nor a digit, no skip pattern (directive, URL, build tag, license
boilerplate) applies, the first letter is lower-case, and the first word is
NOT (identifier-like and absent from the common-word list) — i.e. a first
word from the common function-word list is never treated as
identifier-like, so such comments are flagged, not skipped. -/
theorem commentStyle_flags_iff (raw : List Char) :
    checkComment raw = true ↔
      ∃ c rest, cleanComment raw = c :: rest ∧
        isPunctGo c = false ∧ isDigitGo c = false ∧
        shouldSkip (c :: rest) = false ∧ isLowerGo c = true ∧
        ¬(claimIdentifierLike (c :: rest) = true ∧
          claimCommonWord (c :: rest) = false) := by
  cases hcc : cleanComment raw with
  | nil =>
    rw [checkComment, hcc]
    simp
  | cons c rest =>
    constructor
    · intro h
      obtain ⟨h1, h2, h3, h4, h5⟩ := (checkComment_cons_iff raw c rest hcc).mp h
      refine ⟨c, rest, rfl, h1, h2, h3, h4, ?_⟩
      rw [looksLikeIdentifier_eq] at h5
      rintro ⟨hid, hcw⟩
      rw [hid, hcw] at h5
      simp at h5
    · rintro ⟨c', rest', heq, h1, h2, h3, h4, h5⟩
      rw [checkComment_cons_iff raw c' rest' (hcc.trans heq)]
      refine ⟨h1, h2, h3, h4, ?_⟩
      rw [looksLikeIdentifier_eq]
      by_cases hid : claimIdentifierLike (c' :: rest') = true
      · by_cases hcw : claimCommonWord (c' :: rest') = true
        · simp [hcw]
        · exact absurd ⟨hid, by simpa using hcw⟩ h5
      · simp [show claimIdentifierLike (c' :: rest') = false by simpa using hid]

end capitalcomment

namespace currentyear

/-- C8: for every source file, the CopyrightFreshness rule selects the
first comment group preceding the package declaration, extracts a year via
the copyright pattern (taking the second year of a hyphenated range), and
flags — exactly once, as the single optional diagnostic citing the found
and expected years — iff that year is strictly earlier than the current
year; a year equal to the current year never flags, and a missing header
comment or unparseable year produces no diagnostic. -/
theorem copyrightFreshness_spec :
    (∀ (f : File) (cy : Nat) (cg : CommentGroup) (y : Nat),
        headerComment f = some cg → findYear cg.text = some y →
        (cy ≤ y → checkFile f cy = none) ∧
        (y < cy → checkFile f cy = some ⟨cg.pos, y, cy⟩)) ∧
    (∀ (f : File) (cy : Nat), headerComment f = none → checkFile f cy = none) ∧
    (∀ (f : File) (cy : Nat) (cg : CommentGroup),
        headerComment f = some cg → findYear cg.text = none →
        checkFile f cy = none) ∧
    findYear (chars "Copyright © 2023-2024 Attestant Limited.") = some 2024 ∧
    findYear (chars "Copyright 2026 Attestant Limited.") = some 2026 ∧
    findYear (chars "No year here.") = none := by
  refine ⟨?_, ?_, ?_, by decide, by decide, by decide⟩
  · intro f cy cg y hh hy
    constructor
    · intro hle
      rw [checkFile, hh]
      dsimp only
      rw [hy]
      dsimp only
      rw [if_neg (by omega)]
    · intro hlt
      rw [checkFile, hh]
      dsimp only
      rw [hy]
      dsimp only
      rw [if_pos hlt]
  · intro f cy hh
    rw [checkFile, hh]
  · intro f cy cg hh hy
    rw [checkFile, hh]
    dsimp only
    rw [hy]

/-- Witness for the CopyrightFreshness theorem at concrete files: a 2020
header is flagged in 2026 with found/expected years cited; a 2026 header is
not. -/
theorem copyrightFreshness_spec_witness :
    checkFile exampleFileOld 2026 = some { pos := 0, foundYear := 2020, expectedYear := 2026 } ∧
    checkFile exampleFileNew 2026 = none :=
  ⟨(copyrightFreshness_spec.1 exampleFileOld 2026
      { pos := 0, text := chars "Copyright © 2020 Attestant Limited." } 2020
      (by decide) (by decide)).2 (by decide),
   (copyrightFreshness_spec.1 exampleFileNew 2026
      { pos := 0, text := chars "Copyright © 2026 Attestant Limited." } 2026
      (by decide) (by decide)).1 (by decide)⟩

end currentyear

namespace funcopts

theorem options_not_context (p : Param) :
    isOptionsParam p = true → isContextParam p = false := by
  rw [isOptionsParam, isContextParam]
  cases p.typ <;> simp

theorem ifLen_eq_max (n : Nat) : (if n == 0 then 1 else n) = max n 1 := by
  cases n with
  | zero => rfl
  | succ k =>
    rw [if_neg (by simp)]
    exact (Nat.max_eq_left (by omega)).symm

theorem countNonCtx_some (params : List Param)
    (h : ∀ p ∈ params, isOptionsParam p = false) :
    countNonCtx params = some (specParamCount params) := by
  induction params with
  | nil => rfl
  | cons p rest ih =>
    have hp := h p (List.mem_cons_self p rest)
    have hrest : ∀ q ∈ rest, isOptionsParam q = false := fun q hq =>
      h q (List.mem_cons_of_mem p hq)
    rw [countNonCtx]
    by_cases hc : isContextParam p = true
    · rw [if_pos hc, ih hrest]
      have hs : specParamCount (p :: rest) = specParamCount rest := by
        simp [specParamCount, hc]
      rw [hs]
    · have hc' : isContextParam p = false := by simpa using hc
      rw [if_neg hc, if_neg (by simp [hp]), ih hrest]
      have hs : specParamCount (p :: rest) = max p.names.length 1 + specParamCount rest := by
        simp [specParamCount, hc']
      rw [hs]
      show some (specParamCount rest + (if p.names.length == 0 then 1 else p.names.length)) =
        some (max p.names.length 1 + specParamCount rest)
      rw [ifLen_eq_max, Nat.add_comm]

theorem countNonCtx_none_iff (params : List Param) :
    countNonCtx params = none ↔ ∃ p ∈ params, isOptionsParam p = true := by
  induction params with
  | nil => simp [countNonCtx]
  | cons p rest ih =>
    rw [countNonCtx]
    by_cases hc : isContextParam p = true
    · rw [if_pos hc, ih]
      constructor
      · rintro ⟨q, hq, ho⟩
        exact ⟨q, List.mem_cons_of_mem p hq, ho⟩
      · rintro ⟨q, hq, ho⟩
        rcases List.mem_cons.mp hq with rfl | hq'
        · exact absurd hc (by simp [options_not_context q ho])
        · exact ⟨q, hq', ho⟩
    · by_cases ho : isOptionsParam p = true
      · rw [if_neg hc, if_pos ho]
        exact iff_of_true rfl ⟨p, List.mem_cons_self p rest, ho⟩
      · have ho' : isOptionsParam p = false := by simpa using ho
        rw [if_neg hc, if_neg ho, Option.map_eq_none', ih]
        constructor
        · rintro ⟨q, hq, hqo⟩
          exact ⟨q, List.mem_cons_of_mem p hq, hqo⟩
        · rintro ⟨q, hq, hqo⟩
          rcases List.mem_cons.mp hq with rfl | hq'
          · rw [ho'] at hqo
            exact absurd hqo (by simp)
          · exact ⟨q, hq', hqo⟩

theorem shouldSuggest_iff (f : FuncDecl) :
    shouldSuggestFuncOpts f = true ↔
      (∀ p ∈ f.params, isOptionsParam p = false) ∧ 3 < specParamCount f.params := by
  rw [shouldSuggestFuncOpts]
  by_cases hn : countNonCtx f.params = none
  · obtain ⟨p, hp, ho⟩ := (countNonCtx_none_iff _).mp hn
    rw [hn]
    simp only [Bool.false_eq_true, false_iff]
    rintro ⟨hall, _⟩
    have := hall p hp
    rw [ho] at this
    exact absurd this (by simp)
  · have hall : ∀ p ∈ f.params, isOptionsParam p = false := by
      intro p hp
      by_contra hx
      have hx' : isOptionsParam p = true := by simpa using hx
      exact hn ((countNonCtx_none_iff _).mpr ⟨p, hp, hx'⟩)
    rw [countNonCtx_some _ hall]
    simp only [decide_eq_true_eq]
    exact ⟨fun h => ⟨hall, h⟩, fun h => h.2⟩

/-- C9: the ConstructorShape rule flags a function iff it is receiver-less,
its name carries a `New`/`Create` prefix, its return type names a struct
declared in the unit with a service-like suffix, it declares no variadic
options parameter, and its non-context parameter count (context parameters
never counted) exceeds 3; the testdata unit produces exactly the
`NewUserService` and `NewOrderHandler` diagnostics. -/
theorem funcopts_flags_iff :
    (∀ (u : Unit) (f : FuncDecl),
      f ∈ run u ↔
        f ∈ u.funcs ∧ f.hasRecv = false ∧
          (hasPre f.name (chars "New") = true ∨ hasPre f.name (chars "Create") = true) ∧
          getReturnTypeName f ≠ [] ∧
          (∃ t ∈ u.types, t.isStruct = true ∧ t.name = getReturnTypeName f ∧
            ∃ suffix ∈ serviceTypeSuffixes, ∃ stem, stem ++ suffix = t.name) ∧
          (∀ p ∈ f.params, isOptionsParam p = false) ∧
          3 < specParamCount f.params) ∧
    (run exampleUnit).map (·.name) = [chars "NewUserService", chars "NewOrderHandler"] := by
  constructor
  · intro u f
    rw [run, List.mem_filter, flagFunc]
    simp only [Bool.and_eq_true]
    constructor
    · rintro ⟨hmem, ⟨⟨⟨hrecv, hpre⟩, hret⟩, hsvc⟩, hsug⟩
      obtain ⟨hall, hcount⟩ := (shouldSuggest_iff f).mp hsug
      refine ⟨hmem, by simpa using hrecv, by simpa using hpre, by simpa using hret,
        ?_, hall, hcount⟩
      have hsvc' : getReturnTypeName f ∈ serviceTypes u := by simpa using hsvc
      rw [serviceTypes] at hsvc'
      obtain ⟨t, ht, hname⟩ := List.mem_map.mp hsvc'
      obtain ⟨htypes, hcond⟩ := List.mem_filter.mp ht
      rw [Bool.and_eq_true] at hcond
      obtain ⟨hstruct, hserv⟩ := hcond
      rw [isServiceTypeName, List.any_eq_true] at hserv
      obtain ⟨suffix, hs1, hs2⟩ := hserv
      obtain ⟨stem, hstem⟩ := (hasSuf_iff _ _).mp hs2
      exact ⟨t, htypes, hstruct, hname, suffix, hs1, stem, hstem⟩
    · rintro ⟨hmem, hrecv, hpre, hret, ⟨t, htypes, hstruct, hname, suffix, hs1, stem, hstem⟩,
        hall, hcount⟩
      refine ⟨hmem, ⟨⟨⟨by simp [hrecv], by simpa using hpre⟩, by simpa using hret⟩, ?_⟩,
        (shouldSuggest_iff f).mpr ⟨hall, hcount⟩⟩
      have : getReturnTypeName f ∈ serviceTypes u := by
        rw [serviceTypes]
        refine List.mem_map.mpr ⟨t, List.mem_filter.mpr ⟨htypes, ?_⟩, hname⟩
        rw [Bool.and_eq_true]
        exact ⟨hstruct, by
          rw [isServiceTypeName, List.any_eq_true]
          exact ⟨suffix, hs1, (hasSuf_iff _ _).mpr ⟨stem, hstem⟩⟩⟩
      simpa using this
  · decide

end funcopts

namespace interfacecheck

theorem find?_name_eq {l : List ScopeEntry}
    (hn : (l.map ScopeEntry.name).Nodup) {se : ScopeEntry} (hse : se ∈ l) :
    l.find? (fun e => e.name == se.name) = some se := by
  induction l with
  | nil => simp at hse
  | cons e l ih =>
    rcases List.mem_cons.mp hse with rfl | hmem
    · exact List.find?_cons_of_pos l (by simp)
    · have hhead : e.name ∉ l.map ScopeEntry.name := (List.nodup_cons.mp hn).1
      have hne : ¬((fun e' : ScopeEntry => e'.name == se.name) e = true) := by
        simp only [beq_iff_eq]
        intro heq
        exact hhead (heq ▸ List.mem_map_of_mem ScopeEntry.name hmem)
      rw [List.find?_cons_of_neg l hne]
      exact ih (List.nodup_cons.mp hn).2 hmem

theorem lookupScope_eq (u : Unit) (hn : (u.scope.map ScopeEntry.name).Nodup)
    {se : ScopeEntry} (hse : se ∈ u.scope) : lookupScope u se.name = some se :=
  find?_name_eq hn hse

theorem reportFor_eq_some (u : Unit) (sName : List Char) (ie : ScopeEntry)
    (d : Diagnostic) :
    reportFor u sName ie = some d ↔
      ∃ se, lookupScope u sName = some se ∧
        (implementsIface se.valueMethods (ifaceMethods ie) = true ∨
          implementsIface se.ptrMethods (ifaceMethods ie) = true) ∧
        (collectExistingChecks u).contains (ie.name, sName) = false ∧
        ∃ pos, findStructPos u sName = some pos ∧
          d = { pos := pos, structName := sName, interfaceName := ie.name } := by
  rw [reportFor]
  cases hl : lookupScope u sName with
  | none => simp
  | some se =>
    dsimp only
    by_cases himp : (!implementsIface se.valueMethods (ifaceMethods ie) &&
        !implementsIface se.ptrMethods (ifaceMethods ie)) = true
    · rw [if_pos himp]
      simp only [Bool.and_eq_true, Bool.not_eq_true'] at himp
      constructor
      · intro h
        exact absurd h (by simp)
      · rintro ⟨se', hse', himpl, -⟩
        obtain rfl : se = se' := by injection hse'
        rcases himpl with h1 | h2
        · rw [himp.1] at h1
          exact absurd h1 (by simp)
        · rw [himp.2] at h2
          exact absurd h2 (by simp)
    · have himp' : implementsIface se.valueMethods (ifaceMethods ie) = true ∨
          implementsIface se.ptrMethods (ifaceMethods ie) = true := by
        cases h1 : implementsIface se.valueMethods (ifaceMethods ie) with
        | true => exact Or.inl rfl
        | false =>
          cases h2 : implementsIface se.ptrMethods (ifaceMethods ie) with
          | true => exact Or.inr rfl
          | false =>
            refine absurd ?_ himp
            rw [h1, h2]
            rfl
      rw [if_neg himp]
      by_cases hcov : (collectExistingChecks u).contains (ie.name, sName) = true
      · rw [if_pos hcov]
        constructor
        · intro h
          exact absurd h (by simp)
        · rintro ⟨se', -, -, hcov', -⟩
          rw [hcov'] at hcov
          exact absurd hcov (by simp)
      · have hcov' : (collectExistingChecks u).contains (ie.name, sName) = false := by
          simpa using hcov
        rw [if_neg hcov]
        cases hp : findStructPos u sName with
        | none => simp
        | some pos =>
          dsimp only
          constructor
          · intro h
            injection h with h'
            exact ⟨se, rfl, himp', hcov', pos, rfl, h'.symm⟩
          · rintro ⟨se', -, -, -, pos', hp', rfl⟩
            obtain rfl : pos = pos' := by injection hp'
            rfl

theorem nodup_filterMap_of_injOn {α β : Type} (f : α → Option β) (l : List α) :
    l.Nodup →
    (∀ a ∈ l, ∀ b ∈ l, ∀ c, f a = some c → f b = some c → a = b) →
    (l.filterMap f).Nodup := by
  induction l with
  | nil =>
    intro _ _
    simp
  | cons x xs ih =>
    intro hl hinj
    rw [List.filterMap_cons]
    have hxs : xs.Nodup := hl.of_cons
    have hinj' : ∀ a ∈ xs, ∀ b ∈ xs, ∀ c, f a = some c → f b = some c → a = b :=
      fun a ha b hb => hinj a (List.mem_cons_of_mem x ha) b (List.mem_cons_of_mem x hb)
    cases hx : f x with
    | none => exact ih hxs hinj'
    | some c =>
      refine List.Nodup.cons ?_ (ih hxs hinj')
      intro hc
      obtain ⟨a, ha, hac⟩ := List.mem_filterMap.mp hc
      have hax : a = x :=
        hinj a (List.mem_cons_of_mem x ha) x (List.mem_cons_self x xs) c hac hx
      exact (List.nodup_cons.mp hl).1 (hax ▸ ha)

theorem collectStructNames_nodup (u : Unit)
    (hn : (u.scope.map ScopeEntry.name).Nodup) : (collectStructNames u).Nodup := by
  rw [collectStructNames]
  exact hn.sublist ((List.filter_sublist u.scope).map ScopeEntry.name)

theorem collectIfaces_nodup (u : Unit)
    (hn : (u.scope.map ScopeEntry.name).Nodup) : (collectIfaces u).Nodup :=
  (hn.of_map ScopeEntry.name).filter isIfaceEntry

/-- C5: for every unit whose scope names are unique (as a Go package scope
guarantees) and for EVERY iteration order the two Go map `range` loops may
take, the rule reports a diagnostic iff its struct is a package-scope
struct type, its interface a package-scope interface type with at least one
required method, the struct's value method set or its pointer method set
implements the interface, no `var _ I = (*S)(nil)` assertion records that
exact name pair, and the struct's type spec is found (giving the reported
position); the diagnostics contain no duplicates (exactly one per
qualifying pair); with the collection order as iteration order, the test
fixture yields exactly the `BadWriter`/`Writer` and `BadCloser`/`Closer`
diagnostics. -/
theorem interfaceCheck_run_spec :
    (∀ (u : Unit) (structOrder : List (List Char)) (ifaceOrder : List ScopeEntry),
      (u.scope.map ScopeEntry.name).Nodup →
      structOrder.Perm (collectStructNames u) →
      ifaceOrder.Perm (collectIfaces u) →
      (∀ d : Diagnostic,
        d ∈ run u structOrder ifaceOrder ↔
          ∃ se ∈ u.scope, isStructEntry se = true ∧ se.name = d.structName ∧
          ∃ ie ∈ u.scope, isIfaceEntry ie = true ∧ ie.name = d.interfaceName ∧
            (implementsIface se.valueMethods (ifaceMethods ie) = true ∨
              implementsIface se.ptrMethods (ifaceMethods ie) = true) ∧
            (collectExistingChecks u).contains (d.interfaceName, d.structName) = false ∧
            findStructPos u d.structName = some d.pos) ∧
      (run u structOrder ifaceOrder).Nodup) ∧
    run exampleUnit (collectStructNames exampleUnit) (collectIfaces exampleUnit) =
      [{ pos := 5, structName := chars "BadWriter", interfaceName := chars "Writer" },
       { pos := 6, structName := chars "BadCloser", interfaceName := chars "Closer" }] := by
  refine ⟨?_, by decide⟩
  intro u structOrder ifaceOrder hn hsp hip
  constructor
  · intro d
    rw [run, List.mem_flatMap]
    constructor
    · rintro ⟨sName, hsmem, hin⟩
      obtain ⟨ie, hiemem, hrep⟩ := List.mem_filterMap.mp hin
      obtain ⟨se, hlook, himpl, hcov, pos, hpos, rfl⟩ :=
        (reportFor_eq_some u sName ie d).mp hrep
      have hsc : sName ∈ collectStructNames u := hsp.mem_iff.mp hsmem
      rw [collectStructNames] at hsc
      obtain ⟨se2, hse2f, hse2n⟩ := List.mem_map.mp hsc
      obtain ⟨hse2mem, hse2cond⟩ := List.mem_filter.mp hse2f
      have hsemem : se ∈ u.scope := List.mem_of_find?_eq_some hlook
      have hsename : se.name = sName := by
        have := List.find?_some hlook
        simpa using this
      have heq : se2 = se :=
        List.inj_on_of_nodup_map hn hse2mem hsemem (by rw [hse2n, hsename])
      have hic : ie ∈ collectIfaces u := hip.mem_iff.mp hiemem
      obtain ⟨hiescope, hiecond⟩ := List.mem_filter.mp hic
      exact ⟨se, hsemem, heq ▸ hse2cond, hsename, ie, hiescope, hiecond, rfl, himpl,
        hcov, hpos⟩
    · rintro ⟨se, hsemem, hstr, hsname, ie, hiemem, hicond, hiname, himpl, hcov, hpos⟩
      refine ⟨se.name, ?_, ?_⟩
      · exact hsp.mem_iff.mpr
          (List.mem_map.mpr ⟨se, List.mem_filter.mpr ⟨hsemem, hstr⟩, rfl⟩)
      · refine List.mem_filterMap.mpr
          ⟨ie, hip.mem_iff.mpr (List.mem_filter.mpr ⟨hiemem, hicond⟩), ?_⟩
        refine (reportFor_eq_some u se.name ie d).mpr
          ⟨se, lookupScope_eq u hn hsemem, himpl, ?_, d.pos, ?_, ?_⟩
        · rw [hiname, hsname]
          exact hcov
        · rw [hsname]
          exact hpos
        · rw [hsname, hiname]
  · rw [run, List.nodup_flatMap]
    constructor
    · intro sName _
      refine nodup_filterMap_of_injOn _ ifaceOrder
        (hip.nodup_iff.mpr (collectIfaces_nodup u hn)) ?_
      intro a ha b hb c h1 h2
      have ha' : a ∈ u.scope :=
        List.mem_of_mem_filter (hip.mem_iff.mp ha)
      have hb' : b ∈ u.scope :=
        List.mem_of_mem_filter (hip.mem_iff.mp hb)
      obtain ⟨_, _, _, _, _, _, hca⟩ := (reportFor_eq_some u sName a c).mp h1
      obtain ⟨_, _, _, _, _, _, hcb⟩ := (reportFor_eq_some u sName b c).mp h2
      exact List.inj_on_of_nodup_map hn ha' hb'
        (congrArg Diagnostic.interfaceName (hca.symm.trans hcb))
    · have hOrderNodup : structOrder.Nodup :=
        hsp.nodup_iff.mpr (collectStructNames_nodup u hn)
      refine List.Pairwise.imp ?_ hOrderNodup
      intro a b hne d hda hdb
      obtain ⟨ia, _, hrepa⟩ := List.mem_filterMap.mp hda
      obtain ⟨_, _, _, _, _, _, hca⟩ := (reportFor_eq_some u a ia d).mp hrepa
      obtain ⟨ib, _, hrepb⟩ := List.mem_filterMap.mp hdb
      obtain ⟨_, _, _, _, _, _, hcb⟩ := (reportFor_eq_some u b ib d).mp hrepb
      exact hne (congrArg Diagnostic.structName (hca.symm.trans hcb))

/-- Witness for the interfacecheck theorem on the test-fixture unit with
the collection order as iteration order: the `BadWriter`/`Writer`
diagnostic is present and the fixture's diagnostics contain no
duplicates. -/
theorem interfaceCheck_run_spec_witness :
    ({ pos := 5, structName := chars "BadWriter",
       interfaceName := chars "Writer" } : Diagnostic) ∈
      run exampleUnit (collectStructNames exampleUnit) (collectIfaces exampleUnit) ∧
    (run exampleUnit (collectStructNames exampleUnit) (collectIfaces exampleUnit)).Nodup :=
  ⟨((interfaceCheck_run_spec.1 exampleUnit (collectStructNames exampleUnit)
        (collectIfaces exampleUnit) (by decide) (List.Perm.refl _) (List.Perm.refl _)).1
      { pos := 5, structName := chars "BadWriter", interfaceName := chars "Writer" }).mpr
      ⟨{ name := chars "BadWriter", isTypeName := true,
         underlying := UnderlyingKind.structU, valueMethods := [],
         ptrMethods := [{ name := chars "Write", sig := 1 }] }, by decide, by decide, rfl,
       { name := chars "Writer", isTypeName := true,
         underlying := UnderlyingKind.ifaceU [{ name := chars "Write", sig := 1 }],
         valueMethods := [], ptrMethods := [] }, by decide, by decide, rfl,
       Or.inr (by decide), by decide, by decide⟩,
   (interfaceCheck_run_spec.1 exampleUnit (collectStructNames exampleUnit)
      (collectIfaces exampleUnit) (by decide) (List.Perm.refl _) (List.Perm.refl _)).2⟩

end interfacecheck

namespace config

/-- C3: for every user configuration, each boolean enable field explicitly
present in the user settings yields the user's value in the effective
configuration (including explicit `false`), each absent boolean keeps its
default, each non-empty list field wholesale-replaces the default list,
and an absent or empty list field keeps the default list. -/
theorem newConfig_merge_semantics (keys : RawKeys) (userCfg : Config) :
    (NewConfig (some (keys, userCfg))).EnableNoPkgLogger =
        (if keys.noPkgLogger then userCfg.EnableNoPkgLogger
         else DefaultConfig.EnableNoPkgLogger) ∧
    (NewConfig (some (keys, userCfg))).EnableEnumIota =
        (if keys.enumIota then userCfg.EnableEnumIota
         else DefaultConfig.EnableEnumIota) ∧
    (NewConfig (some (keys, userCfg))).EnableCurrentYear =
        (if keys.currentYear then userCfg.EnableCurrentYear
         else DefaultConfig.EnableCurrentYear) ∧
    (NewConfig (some (keys, userCfg))).EnableCapitalComment =
        (if keys.capitalComment then userCfg.EnableCapitalComment
         else DefaultConfig.EnableCapitalComment) ∧
    (NewConfig (some (keys, userCfg))).EnableFuncOpts =
        (if keys.funcOpts then userCfg.EnableFuncOpts
         else DefaultConfig.EnableFuncOpts) ∧
    (NewConfig (some (keys, userCfg))).EnableRawString =
        (if keys.rawString then userCfg.EnableRawString
         else DefaultConfig.EnableRawString) ∧
    (NewConfig (some (keys, userCfg))).EnableStructFieldOrder =
        (if keys.structFieldOrder then userCfg.EnableStructFieldOrder
         else DefaultConfig.EnableStructFieldOrder) ∧
    (NewConfig (some (keys, userCfg))).EnableInterfaceCheck =
        (if keys.interfaceCheck then userCfg.EnableInterfaceCheck
         else DefaultConfig.EnableInterfaceCheck) ∧
    (NewConfig (some (keys, userCfg))).LoggerTypePatterns =
        (if userCfg.LoggerTypePatterns = [] then DefaultConfig.LoggerTypePatterns
         else userCfg.LoggerTypePatterns) ∧
    (NewConfig (some (keys, userCfg))).EnumTypeSuffixes =
        (if userCfg.EnumTypeSuffixes = [] then DefaultConfig.EnumTypeSuffixes
         else userCfg.EnumTypeSuffixes) := by
  refine ⟨rfl, rfl, rfl, rfl, rfl, rfl, rfl, rfl, ?_, ?_⟩
  · show (if 0 < userCfg.LoggerTypePatterns.length then userCfg.LoggerTypePatterns
      else DefaultConfig.LoggerTypePatterns) = _
    cases userCfg.LoggerTypePatterns <;> simp
  · show (if 0 < userCfg.EnumTypeSuffixes.length then userCfg.EnumTypeSuffixes
      else DefaultConfig.EnumTypeSuffixes) = _
    cases userCfg.EnumTypeSuffixes <;> simp

/-- C10: `Config.Merge` changes at most the two list fields of the
receiver; all eight boolean enable fields are unchanged for every argument,
and a nil argument leaves the receiver entirely unchanged. -/
theorem merge_frame (c : Config) (other : Option Config) :
    (Merge c other).EnableNoPkgLogger = c.EnableNoPkgLogger ∧
    (Merge c other).EnableEnumIota = c.EnableEnumIota ∧
    (Merge c other).EnableCurrentYear = c.EnableCurrentYear ∧
    (Merge c other).EnableCapitalComment = c.EnableCapitalComment ∧
    (Merge c other).EnableFuncOpts = c.EnableFuncOpts ∧
    (Merge c other).EnableRawString = c.EnableRawString ∧
    (Merge c other).EnableStructFieldOrder = c.EnableStructFieldOrder ∧
    (Merge c other).EnableInterfaceCheck = c.EnableInterfaceCheck ∧
    Merge c none = c := by
  cases other with
  | none => exact ⟨rfl, rfl, rfl, rfl, rfl, rfl, rfl, rfl, rfl⟩
  | some o => exact ⟨rfl, rfl, rfl, rfl, rfl, rfl, rfl, rfl, rfl⟩

end config

end AttgoLinter
